import Mathlib

/-!
Verification of the SentinelVision tracking-and-anomaly-inference engine
(`src/anomaly_detector.py`, class `AnomalyDetector`).

Shallow embedding conventions:
* Timestamps and accumulated times are modelled as exact rationals (`ℚ`);
  the Python code uses float64, but every scenario analysed here uses
  dyadic values that float64 represents exactly.
* Bounding boxes and pixel centers are integers (`ℤ`); Python computes
  centers with `//` (floor division), modelled by `Int.fdiv`.
* Python dicts (`tracked_objects`, `potential_abandoned_objects`) are
  insertion-ordered key/value maps; they are modelled as association
  lists (`dictGet`/`dictSet`) that preserve Python's insertion order and
  update-in-place semantics.
* `collections.deque(maxlen=n)` is modelled by `dequeAppend n`, which
  keeps the last `n` elements (oldest evicted first).
* Track ids are the Python strings `f"{class}_{int(t*1000)}"`, modelled
  as pairs `(class, int (t*1000))`; since the decimal rendering of the
  integer contains no underscore, splitting the string at its last
  underscore is a bijection between the strings and the pairs, so the
  pair model has exactly the same equalities (including collisions).
  Candidate keys `f"{class}_{cx}_{cy}"` are likewise modelled as triples.
* `math.sqrt` distances: every comparison of a distance with a constant
  (`distance < 100`, `< 150`, `< movement_threshold`) and the running
  minimum in `find_or_create_object_id` are performed on the squared
  distances, which is exactly equivalent for true Euclidean distances.
  The raw value appended to `movement_history` is modelled by
  `intSqrt` (the floor integer square root) of the squared distance,
  which agrees with the true square root whenever the squared step
  distance is a perfect square — the case in every concrete execution
  analysed in this file (all step distances are axis-aligned or zero),
  and no theorem below depends on `movement_history` values that are
  not of this form.
* A Python exception escaping a statement is modelled with `Except`:
  `.error s` carries the mutable state as it stood when the exception
  was raised (mutations already performed persist, later statements do
  not run), matching CPython semantics.
-/

/-- Python truncating conversion `int(q)` (rounds toward zero). -/
def truncQ (q : ℚ) : ℤ := if 0 ≤ q then Rat.floor q else -(Rat.floor (-q))

/-- Newton iteration for the floor integer square root; the first
argument is structural fuel (the iteration strictly decreases the
guess, so any fuel ≥ the initial guess is enough and the recursion is
kernel-reducible). -/
def isqrtAux : ℕ → ℕ → ℕ → ℕ
  | 0, _, guess => guess
  | fuel + 1, n, guess =>
      let next := (guess + n / guess) / 2
      if next < guess then isqrtAux fuel n next else guess

/-- Floor integer square root (Newton's method). -/
def isqrt (n : ℕ) : ℕ := if n ≤ 1 then n else isqrtAux n n (n / 2)

/-- `math.sqrt` on a nonnegative integer, floored: exact (and used only)
on perfect squares in this development. -/
def intSqrt (z : ℤ) : ℤ := (isqrt z.toNat : ℤ)

/-- Insertion-ordered dict lookup (`d[k]` on the read path / `k in d`). -/
def dictGet {α β : Type} [DecidableEq α] : List (α × β) → α → Option β
  | [], _ => none
  | (k, v) :: rest, key => if k = key then some v else dictGet rest key

/-- Insertion-ordered dict write `d[k] = v`: replaces the value of an
existing key in place, otherwise appends the new key at the end,
matching Python 3.7+ dict ordering. -/
def dictSet {α β : Type} [DecidableEq α] : List (α × β) → α → β → List (α × β)
  | [], key, val => [(key, val)]
  | (k, v) :: rest, key, val =>
      if k = key then (k, val) :: rest else (k, v) :: dictSet rest key val

/-- `collections.deque(maxlen := cap).append x`: keeps the last `cap`
elements, evicting from the front. -/
def dequeAppend {α : Type} (cap : ℕ) (l : List α) (x : α) : List α :=
  (l ++ [x]).drop (l.length + 1 - cap)

/-- A bounding box `[x, y, w, h]` in frame pixel coordinates. -/
structure BBox where
  x : ℤ
  y : ℤ
  w : ℤ
  h : ℤ
deriving DecidableEq

/-- One detection dict `{class, confidence, bbox}`.  The `class` and
`bbox` entries are `Option`s: `none` models a missing (or unusable) key,
whose access raises an exception (`MalformedDetection` in the spec's
taxonomy).  `class` is a Lean keyword, hence the field name `dclass`. -/
structure Detection where
  dclass : Option String
  confidence : ℚ
  bbox : Option BBox
deriving DecidableEq

/-- Total projections for the code paths that run only after
`update_tracking` has completed, which guarantees both keys are present
on every detection of the frame; the defaults are never read there. -/
def detClass (d : Detection) : String := d.dclass.getD ""

def detBBox (d : Detection) : BBox := d.bbox.getD ⟨0, 0, 0, 0⟩

/-- `bbox[0] + bbox[2] // 2` (Python `//` binds before `+`). -/
def centerX (d : Detection) : ℤ := (detBBox d).x + (detBBox d).w.fdiv 2

/-- `bbox[1] + bbox[3] // 2`. -/
def centerY (d : Detection) : ℤ := (detBBox d).y + (detBBox d).h.fdiv 2

/-- A detection is well formed when both the `class` and the `bbox`
keys are present; `update_tracking` reads both before its first state
mutation for the detection, so a malformed detection raises before
touching the store. -/
def wellFormed (d : Detection) : Bool := d.dclass.isSome && d.bbox.isSome

/-- Track id: the Python string `f"{detection['class']}_{int(timestamp*1000)}"`,
as the pair (class label, millisecond integer). -/
abbrev ObjId := String × ℤ

/-- Abandoned-object candidate key `f"{class}_{center_x}_{center_y}"`,
as the triple (class label, center x, center y). -/
abbrev CKey := String × ℤ × ℤ

/-- One value of `tracked_objects` (the per-track record). -/
structure TrackInfo where
  positions : List (ℤ × ℤ × ℚ)
  first_seen : Option ℚ
  last_seen : Option ℚ
  stationary_time : ℚ
  movement_history : List ℚ
  tclass : Option String
deriving DecidableEq

/-- The `defaultdict` default: fresh empty track record. -/
def defaultTrack : TrackInfo := ⟨[], none, none, 0, [], none⟩

/-- One value of `potential_abandoned_objects`. -/
structure CandInfo where
  first_seen : ℚ
  det : Detection
  confirmed : Bool
deriving DecidableEq

abbrev CandMap := List (CKey × CandInfo)

/-- The producer of an anomaly event (`object_id` field): a track id for
loitering / suspicious-movement, a candidate key for abandoned-object.
Python stores both as strings in the same field; no property herein
compares ids across the two kinds. -/
inductive EvSource where
  | track (id : ObjId)
  | cand (k : CKey)
deriving DecidableEq

/-- One emitted anomaly dict.  The human-readable `description` string
is not modelled (pure presentation, read by nothing). -/
structure AnomalyEvent where
  etype : String
  severity : String
  start_frame : ℕ
  start_timestamp : Option ℚ
  bbox : BBox
  confidence : ℚ
  source : EvSource
deriving DecidableEq

/-- The engine's mutable state: `self.tracked_objects` and
`self.potential_abandoned_objects`.  The configuration fields of
`__init__` are fixed constants (below) and the zone lists are unused by
the implemented code paths. -/
structure DetectorState where
  tracks : List (ObjId × TrackInfo)
  cands : CandMap
deriving DecidableEq

def initialState : DetectorState := ⟨[], []⟩

/-- `self.loitering_threshold = 10.0`. -/
def loitering_threshold : ℚ := 10

/-- `self.abandoned_object_threshold = 5.0`. -/
def abandoned_object_threshold : ℚ := 5

/-- `self.movement_threshold = 20` (pixels). -/
def movement_threshold : ℤ := 20

/-- `find_or_create_object_id`: scan all tracks of the same class with a
non-empty position history; among those with (true Euclidean) distance
`< 100` and recency `< 1.0 s`, keep the argmin of the distance (first
minimum wins, strict improvement required — dict iteration order);
otherwise mint `f"{class}_{int(timestamp*1000)}"`.
Distance comparisons are done on squared distances (`100² = 10000`),
exactly equivalent to comparing the true distances.  The source's
truthiness test `if best_match:` is an `Option` match here: a stored id
string always contains an underscore, so it is never falsy. -/
def find_or_create_object_id (st : DetectorState) (cls : String)
    (cx cy : ℤ) (t : ℚ) : ObjId :=
  let best := st.tracks.foldl
    (fun best kv =>
      if kv.2.tclass = some cls then
        match kv.2.positions.getLast? with
        | some p =>
            let d2 := (cx - p.1) ^ 2 + (cy - p.2.1) ^ 2
            let ok : Bool := decide (d2 < 10000) && decide (t - p.2.2 < 1) &&
              (match best with
               | none => true
               | some b => decide (d2 < b.2))
            if ok then some (kv.1, d2) else best
        | none => best
      else best)
    (none : Option (ObjId × ℤ))
  match best with
  | some b => b.1
  | none => (cls, truncQ (t * 1000))

/-- The per-detection mutation block of `update_tracking` (lines 87-107):
append the position (capacity 30), refresh `last_seen`/`class`, set
`first_seen` once, and if two positions exist record the step distance
(capacity 10) and update `stationary_time`.  The stationary test
`distance < movement_threshold` is performed on the squared distance
(`movement_threshold² = 400`), equivalent for the true distance; the
recorded history value is `intSqrt` of the squared distance (exact on
perfect squares, see file header). -/
def applyDetection (ti : TrackInfo) (cx cy : ℤ) (t : ℚ) (cls : String) :
    TrackInfo :=
  let positions := dequeAppend 30 ti.positions (cx, cy, t)
  let ti1 : TrackInfo :=
    { ti with
      positions := positions
      last_seen := some t
      tclass := some cls
      first_seen := if ti.first_seen = none then some t else ti.first_seen }
  if positions.length > 1 then
    match positions.getLast?, positions.dropLast.getLast? with
    | some curr, some prev =>
        let d2 := (curr.1 - prev.1) ^ 2 + (curr.2.1 - prev.2.1) ^ 2
        let mh := dequeAppend 10 ti1.movement_history ((intSqrt d2 : ℤ) : ℚ)
        if d2 < movement_threshold ^ 2 then
          { ti1 with
            movement_history := mh
            stationary_time := ti1.stationary_time + (curr.2.2 - prev.2.2) }
        else
          { ti1 with movement_history := mh, stationary_time := 0 }
    | _, _ => ti1
  else ti1

/-- One iteration of the `for detection in detections` loop of
`update_tracking`, for a detection whose `class` and `bbox` are present. -/
def updateOne (st : DetectorState) (cls : String) (bb : BBox) (t : ℚ) :
    DetectorState × ObjId :=
  let cx := bb.x + bb.w.fdiv 2
  let cy := bb.y + bb.h.fdiv 2
  let oid := find_or_create_object_id st cls cx cy t
  let ti := (dictGet st.tracks oid).getD defaultTrack
  let ti' := applyDetection ti cx cy t cls
  ({ st with tracks := dictSet st.tracks oid ti' }, oid)

/-- The detection loop of `update_tracking`.  A malformed detection
raises (`.error`) carrying the state mutated so far; the `current_objects`
set is the list of ids matched so far. -/
def processDetections (st : DetectorState) (cur : List ObjId) (t : ℚ) :
    List Detection → Except DetectorState (DetectorState × List ObjId)
  | [] => .ok (st, cur)
  | d :: rest =>
      match d.dclass, d.bbox with
      | some cls, some bb =>
          let r := updateOne st cls bb t
          processDetections r.1 (cur ++ [r.2]) t rest
      | _, _ => .error st

/-- Predicate of `cleanup_old_objects` for tracks: removable when not
matched this frame, `last_seen` is truthy (Python: not `None` and not
`0.0`), and unseen for more than 5 s. -/
def staleTrack (cur : List ObjId) (t : ℚ) (kv : ObjId × TrackInfo) : Bool :=
  !(decide (kv.1 ∈ cur)) &&
    (match kv.2.last_seen with
     | none => false
     | some ls => !(decide (ls = 0)) && decide (t - ls > 5))

/-- `cleanup_old_objects`: drop stale tracks and candidates first seen
more than 60 s ago (collect-then-delete equals an order-preserving
filter, keys being unique). -/
def cleanup_old_objects (st : DetectorState) (t : ℚ) (cur : List ObjId) :
    DetectorState :=
  { tracks := st.tracks.filter (fun kv => !(staleTrack cur t kv))
    cands := st.cands.filter (fun kv => !(decide (t - kv.2.first_seen > 60))) }

/-- `update_tracking`: run the detection loop, then (only if no
exception escaped the loop) the cleanup sweep. -/
def update_tracking (st : DetectorState) (dets : List Detection) (t : ℚ) :
    Except DetectorState DetectorState :=
  match processDetections st [] t dets with
  | .error s => .error s
  | .ok (s, cur) => .ok (cleanup_old_objects s t cur)

/-- `get_object_bbox`: a fixed 50×50 box centered on the track's last
known position (the Python `defaultdict` read for an absent id would
insert an empty record and return the `[0,0,50,50]` default; it is only
ever called with ids taken from the live iteration, so the insertion is
unobservable and not modelled). -/
def get_object_bbox (st : DetectorState) (k : ObjId) : BBox :=
  match dictGet st.tracks k with
  | some ti =>
      match ti.positions.getLast? with
      | some p => ⟨p.1 - 25, p.2.1 - 25, 50, 50⟩
      | none => ⟨0, 0, 50, 50⟩
  | none => ⟨0, 0, 50, 50⟩

def loiterEvent (st : DetectorState) (k : ObjId) (ti : TrackInfo) :
    AnomalyEvent :=
  { etype := "loitering"
    severity := if ti.stationary_time < 30 then "medium" else "high"
    start_frame := 0
    start_timestamp := ti.first_seen
    bbox := get_object_bbox st k
    confidence := 4 / 5
    source := .track k }

/-- The iteration of `detect_loitering` over `tracked_objects.items()`. -/
def loiterScan (st : DetectorState) :
    List (ObjId × TrackInfo) → List AnomalyEvent
  | [] => []
  | (k, ti) :: rest =>
      (if ti.tclass = some "person" ∧
          ti.stationary_time > loitering_threshold then
        match ti.positions.getLast? with
        | some _ => [loiterEvent st k ti]
        | none => []
      else []) ++ loiterScan st rest

/-- `detect_loitering` (the `timestamp` parameter is unused, as in the
source). -/
def detect_loitering (st : DetectorState) (_t : ℚ) : List AnomalyEvent :=
  loiterScan st st.tracks

def abandonedEvent (k : CKey) (ci : CandInfo) (d : Detection) :
    AnomalyEvent :=
  { etype := "abandoned_object"
    severity := "high"
    start_frame := 0
    start_timestamp := some ci.first_seen
    bbox := detBBox d
    confidence := 9 / 10
    source := .cand k }

/-- One iteration of the `for detection in detections` loop of
`detect_abandoned_objects`: skip persons; skip when any person detection
of the frame has its center within 150 px (squared: `150² = 22500`);
otherwise create the candidate, or confirm-and-emit once it is older
than the 5 s threshold. -/
def abandonedStep1 (dets : List Detection) (t : ℚ) (cs : CandMap)
    (d : Detection) : List AnomalyEvent × CandMap :=
  if detClass d = "person" then ([], cs)
  else
    let cx := centerX d
    let cy := centerY d
    let person_nearby := dets.any (fun o =>
      decide (detClass o = "person") &&
        decide ((cx - centerX o) ^ 2 + (cy - centerY o) ^ 2 < 22500))
    if person_nearby then ([], cs)
    else
      let key : CKey := (detClass d, cx, cy)
      match dictGet cs key with
      | none => ([], dictSet cs key ⟨t, d, false⟩)
      | some ci =>
          if t - ci.first_seen > abandoned_object_threshold ∧
              ci.confirmed = false then
            ([abandonedEvent key ci d],
              dictSet cs key ⟨ci.first_seen, ci.det, true⟩)
          else ([], cs)

/-- The loop of `detect_abandoned_objects`, threading the candidate
registry; `dets` is the whole frame (for the person scan), the last
argument the remaining iterations. -/
def abandonedScan (dets : List Detection) (t : ℚ) (cs : CandMap) :
    List Detection → List AnomalyEvent × CandMap
  | [] => ([], cs)
  | d :: rest =>
      let r1 := abandonedStep1 dets t cs d
      let r2 := abandonedScan dets t r1.2 rest
      (r1.1 ++ r2.1, r2.2)

/-- `detect_abandoned_objects` (returns the events and the state with
the mutated candidate registry). -/
def detect_abandoned_objects (st : DetectorState) (dets : List Detection)
    (t : ℚ) : List AnomalyEvent × DetectorState :=
  let r := abandonedScan dets t st.cands dets
  (r.1, { st with cands := r.2 })

def suspiciousEvent (st : DetectorState) (k : ObjId) (ti : TrackInfo) :
    AnomalyEvent :=
  { etype := "suspicious_movement"
    severity := "medium"
    start_frame := 0
    start_timestamp := ti.first_seen
    bbox := get_object_bbox st k
    confidence := 7 / 10
    source := .track k }

/-- The iteration of `detect_suspicious_movement`: persons with more
than 5 recorded steps; with more than 8 steps, emit when the population
variance of the recorded step distances exceeds 1000. -/
def suspiciousScan (st : DetectorState) :
    List (ObjId × TrackInfo) → List AnomalyEvent
  | [] => []
  | (k, ti) :: rest =>
      (if ti.tclass = some "person" ∧ ti.movement_history.length > 5 then
        let avg := ti.movement_history.sum / (ti.movement_history.length : ℚ)
        if ti.movement_history.length > 8 then
          let variance :=
            (ti.movement_history.map (fun x => (x - avg) ^ 2)).sum /
              (ti.movement_history.length : ℚ)
          if variance > 1000 then [suspiciousEvent st k ti] else []
        else []
      else []) ++ suspiciousScan st rest

/-- `detect_suspicious_movement` (the `timestamp` parameter is unused,
as in the source). -/
def detect_suspicious_movement (st : DetectorState) (_t : ℚ) :
    List AnomalyEvent :=
  suspiciousScan st st.tracks

/-- `detect_zone_violations`: unimplemented hook, always empty. -/
def detect_zone_violations (_dets : List Detection) (_t : ℚ) :
    List AnomalyEvent := []

/-- Fault injection for §4.6 / claim C1: `.floit` models an unexpected
internal error raised inside the `detect_loitering` call; `.fnone` is
the unmodified source behaviour.  Because `anomalies.extend(...)` runs
only after the classifier call returns, and `detect_loitering` never
mutates the store, an error raised anywhere inside it reaches the
top-level `except` of `detect_anomalies` with `anomalies` still `[]`
and the state exactly as `update_tracking` left it. -/
inductive Fault where
  | fnone
  | floit
deriving DecidableEq

/-- `detect_anomalies`: the engine facade.  The single `try`/`except`
wraps the tracking update and all classifiers; whatever the caught
exception, the `anomalies` accumulated so far are returned and the
engine continues.  The `frame_number` argument is unused, as in the
source. -/
def detect_anomalies (fault : Fault) (st : DetectorState)
    (dets : List Detection) (_frame_number : ℕ) (t : ℚ) :
    List AnomalyEvent × DetectorState :=
  match update_tracking st dets t with
  | .error s => ([], s)
  | .ok s1 =>
      match fault with
      | .floit => ([], s1)
      | .fnone =>
          let l := detect_loitering s1 t
          let ra := detect_abandoned_objects s1 dets t
          let s2 := ra.2
          let m := detect_suspicious_movement s2 t
          let z := detect_zone_violations dets t
          (l ++ ra.1 ++ m ++ z, s2)

/-- Sequential fault-free invocation of the facade, one call per frame,
collecting each frame's event list. -/
def runFrames (st : DetectorState) :
    List (List Detection × ℕ × ℚ) → DetectorState × List (List AnomalyEvent)
  | [] => (st, [])
  | (dets, n, t) :: rest =>
      let r := detect_anomalies .fnone st dets n t
      let rr := runFrames r.2 rest
      (rr.1, r.1 :: rr.2)

/-- The bounded-history invariant of a track record: `positions` within
the deque capacity 30 and `movement_history` within capacity 10. -/
def trackBoundsOK (ti : TrackInfo) : Prop :=
  ti.positions.length ≤ 30 ∧ ti.movement_history.length ≤ 10

/-- The events of a list attributed to the candidate key `k`. -/
def eventsForKey (k : CKey) (evs : List AnomalyEvent) : List AnomalyEvent :=
  evs.filter (fun e => decide (e.source = .cand k))

/-! ## Concrete detections, states and traces used by the claims -/

/-- A `"person"` detection at bbox `(100,100,20,40)` (center `(110,120)`),
the fixed detection of end-to-end scenario A. -/
def personDetA : Detection := ⟨some "person", 9 / 10, some ⟨100, 100, 20, 40⟩⟩

/-- Scenario A input: `personDetA` fed for 11 consecutive 1 fps frames,
timestamps `t = 0, 1, …, 10`. -/
def traceA : List (List Detection × ℕ × ℚ) :=
  (List.range 11).map (fun i => ([personDetA], i, (i : ℚ)))

/-- A `"backpack"` detection at bbox `(200,200,10,10)` (center `(205,205)`). -/
def bpDet : Detection := ⟨some "backpack", 9 / 10, some ⟨200, 200, 10, 10⟩⟩

/-- Scenario B input held for `n` 1 fps frames, timestamps `0, …, n-1`. -/
def traceB (n : ℕ) : List (List Detection × ℕ × ℚ) :=
  (List.range n).map (fun i => ([bpDet], i, (i : ℚ)))

/-- A `"person"` detection whose center `(205,205)` coincides with
`bpDet`'s center (distance 0 < 150). -/
def personNearBp : Detection := ⟨some "person", 9 / 10, some ⟨200, 200, 10, 10⟩⟩

/-- Engine state after one fault-free frame containing only `bpDet` at
`t = 0`: the candidate `("backpack", 205, 205)` is registered with
`first_seen = 0`, unconfirmed. -/
def stAfterBp0 : DetectorState :=
  (detect_anomalies .fnone initialState [bpDet] 0 0).2

/-- Interrupted-observation trace for C4: the backpack alone at `t = 0`,
the backpack with a person right next to it at `t = 3`, the backpack
alone again at `t = 6`. -/
def traceC4 : List (List Detection × ℕ × ℚ) :=
  [([bpDet], 0, 0), ([bpDet, personNearBp], 1, 3), ([bpDet], 2, 6)]

/-- `"person"` detections at centers `(0,0)`, `(90,0)`, `(700,0)`,
`(120,0)` and `(50,0)` (all bboxes have zero width/height so the center
is the corner). -/
def dPerson0 : Detection := ⟨some "person", 9 / 10, some ⟨0, 0, 0, 0⟩⟩

def dPerson90 : Detection := ⟨some "person", 9 / 10, some ⟨90, 0, 0, 0⟩⟩

def dPerson700 : Detection := ⟨some "person", 9 / 10, some ⟨700, 0, 0, 0⟩⟩

def dPerson120 : Detection := ⟨some "person", 9 / 10, some ⟨120, 0, 0, 0⟩⟩

def dPerson50 : Detection := ⟨some "person", 9 / 10, some ⟨50, 0, 0, 0⟩⟩

/-- State holding one track at `(120,0)` last seen at `t = 1/2`
(id `("person", 500)`), used to exhibit order-dependent association. -/
def stTrack120 : DetectorState :=
  (detect_anomalies .fnone initialState [dPerson120] 0 (1 / 2)).2

/-- A person standing still at center `(0,0)`, sampled every 0.5 s for
22 frames (`t = 0, 1/2, …, 21/2`): the 0.5 s gap satisfies the strict
`< 1.0 s` recency bound, so a single track accumulates
`stationary_time = 21/2 > 10`. -/
def traceHalfSec : List (List Detection × ℕ × ℚ) :=
  (List.range 22).map (fun i => ([dPerson0], i, (i : ℚ) / 2))

/-- The engine state after `traceHalfSec`: one `"person"` track with
`stationary_time = 21/2`, `last_seen = 21/2`. -/
def stLoiterer : DetectorState := (runFrames initialState traceHalfSec).1

/-! ## Concrete (counterexample / scenario) theorems -/

/-- Counterexample to claim C1: from a state holding the 6-second-old
unconfirmed candidate, a fault-free frame emits the abandoned-object
event, while the same frame with a fault injected inside the loitering
classifier emits nothing at all — the fault does prevent the
abandoned-object classifier from contributing its event. -/
theorem C1_counterexample :
    ((detect_anomalies .fnone stAfterBp0 [bpDet] 1 6).1.map
        (fun e => e.etype) = ["abandoned_object"]) ∧
    (detect_anomalies .floit stAfterBp0 [bpDet] 1 6).1 = [] := by with_unfolding_all decide

/-- Claim C1 (amended): a fault raised inside the loitering classifier
reaches the single top-level handler of `detect_anomalies`: the frame
returns zero events (no later classifier runs), while the tracking
update persists exactly as in the fault-free call and the engine
returns normally. -/
theorem C1_loitering_fault_suppresses_all_classifiers
    (st : DetectorState) (dets : List Detection) (n : ℕ) (t : ℚ) :
    (detect_anomalies .floit st dets n t).1 = [] ∧
    (detect_anomalies .floit st dets n t).2.tracks =
      (detect_anomalies .fnone st dets n t).2.tracks := by
  unfold detect_anomalies
  cases update_tracking st dets t <;> simp [detect_abandoned_objects]

/-- Counterexample to claim C2: a frame `[malformed, person]` — the
malformed detection (missing bbox) aborts the whole frame: the
well-formed person detection is never associated (the track store stays
empty), whereas the control frame without the malformed detection does
create its track. -/
theorem C2_counterexample :
    ((detect_anomalies .fnone initialState
        [⟨some "person", 9 / 10, none⟩, dPerson0] 0 0).2.tracks = []) ∧
    ((detect_anomalies .fnone initialState
        [⟨some "person", 9 / 10, none⟩, dPerson0] 0 0).1 = []) ∧
    (detect_anomalies .fnone initialState [dPerson0] 0 0).2.tracks.length = 1
    := by with_unfolding_all decide

/-- Counterexample to claim C3: after `traceHalfSec` the store holds the
person track `("person", 0)` with `stationary_time = 21/2 > 10` and a
non-empty history — by the claim, the next frame's loitering classifier
should still see it and emit.  On the frame at `t = 33/2` (staleness
first exceeded: `33/2 - 21/2 = 6 > 5`) the code instead removes it
during `update_tracking`, before any classifier: no event is emitted
and the store is empty afterwards. -/
theorem C3_counterexample :
    (stLoiterer.tracks.map Prod.fst = [("person", 0)]) ∧
    ((dictGet stLoiterer.tracks ("person", 0)).map
        (fun ti => (ti.tclass, ti.stationary_time, ti.last_seen)) =
      some (some "person", 21 / 2, some (21 / 2))) ∧
    ((21 : ℚ) / 2 > loitering_threshold) ∧
    ((detect_anomalies .fnone stLoiterer [] 22 (33 / 2)).1 = []) ∧
    ((detect_anomalies .fnone stLoiterer [] 22 (33 / 2)).2.tracks = [])
    := by with_unfolding_all decide

/-- Counterexample to claim C4: the candidate `("backpack", 205, 205)`
is created at `t = 0`; at `t = 3` the key is observed with a person
center at distance 0 (< 150); at `t = 6` the abandoned-object event
fires anyway — so the event is emitted without 5 s of continuous
no-person-nearby observation. -/
theorem C4_counterexample :
    (((runFrames initialState traceC4).2.getD 2 []).map
        (fun e => (e.etype, e.source)) =
      [("abandoned_object", EvSource.cand ("backpack", 205, 205))]) ∧
    ((centerX bpDet - centerX personNearBp) ^ 2 +
        (centerY bpDet - centerY personNearBp) ^ 2 < 22500) := by with_unfolding_all decide

/-- Counterexample to claim C5: scenario A (the fixed person at 1 fps,
`t = 0…10`) produces no loitering event at the `t = 10` frame (nor at
any other), not the claimed exactly-one Loitering(Medium): each 1.0 s
gap fails the strict `< 1.0 s` recency bound, so no detection is ever
associated to the previous frame's track. -/
theorem C5_counterexample :
    (((runFrames initialState traceA).2.getD 10 []).filter
        (fun e => decide (e.etype = "loitering"))).length = 0 := by with_unfolding_all decide

/-- Claim C5 (amended): scenario A produces no events at all in any of
the 11 frames: consecutive samples are exactly 1.0 s apart, failing the
strict `< 1.0 s` association recency bound, so every frame creates a
fresh track whose `stationary_time` stays 0. -/
theorem C5_scenarioA_no_events :
    (runFrames initialState traceA).2 = List.replicate 11 [] := by with_unfolding_all decide

/-- Counterexample to claim C6: scenario B (backpack held at an
identical position, no person nearby, frames `t = 0…5`) produces no
AbandonedObject event at all — at `t = 5` the strict test
`5.0 > 5.0` fails — contradicting the claimed single event at `t = 5`. -/
theorem C6_counterexample :
    (runFrames initialState (traceB 6)).2 = List.replicate 6 [] := by with_unfolding_all decide

/-- Claim C6 (amended): holding the backpack through `t = 0…8` yields
nothing up to `t = 5`, exactly one AbandonedObject(High) event at
`t = 6` — the first frame with `t - first_seen > 5.0` — with
`start_timestamp = 0` and the detection's own bbox, and nothing
thereafter while the detection is held. -/
theorem C6_scenarioB_fires_at_6 :
    (runFrames initialState (traceB 9)).2 =
      [[], [], [], [], [], [],
        [{ etype := "abandoned_object", severity := "high",
           start_frame := 0, start_timestamp := some 0,
           bbox := ⟨200, 200, 10, 10⟩, confidence := 9 / 10,
           source := .cand ("backpack", 205, 205) }],
        [], []] := by with_unfolding_all decide

set_option maxRecDepth 40000 in
/-- Counterexample to claim C7: two `"person"` detections 700 px apart
in the same frame at `t = 0` — association finds no eligible match for
either, yet both receive the id `("person", 0)`: after the call ONE
track exists, holding both detections' positions, instead of two tracks
with distinct fresh ids. -/
theorem C7_counterexample :
    (detect_anomalies .fnone initialState [dPerson0, dPerson700] 0 0).2.tracks
      = [(("person", 0),
          { positions := [(0, 0, 0), (700, 0, 0)], first_seen := some 0,
            last_seen := some 0, stationary_time := 0,
            movement_history := [700], tclass := some "person" })] := by with_unfolding_all decide

/-- Claim C10: (a) within one call, the second detection (center 90 px
from the first, same class) is associated to the track the first
detection just created — elapsed time 0 satisfies the `< 1.0 s` bound —
merging both into one track with two position entries carrying the same
timestamp; (b) from a state with a live track at `(120,0)`, feeding the
same two detections in the two orders yields different track stores
(two tracks vs one), so the assignment depends on the input order. -/
theorem C10_same_frame_association_order_dependent :
    ((0 - 90 : ℤ) ^ 2 + (0 - 0 : ℤ) ^ 2 < 10000) ∧
    ((detect_anomalies .fnone initialState [dPerson0, dPerson90] 0 0).2.tracks
      = [(("person", 0),
          { positions := [(0, 0, 0), (90, 0, 0)], first_seen := some 0,
            last_seen := some 0, stationary_time := 0,
            movement_history := [90], tclass := some "person" })]) ∧
    ((detect_anomalies .fnone stTrack120 [dPerson0, dPerson50] 1 1).2.tracks.map
        Prod.fst = [("person", 500), ("person", 1000)]) ∧
    ((detect_anomalies .fnone stTrack120 [dPerson50, dPerson0] 1 1).2.tracks.map
        Prod.fst = [("person", 500)]) := by with_unfolding_all decide

/-! ## Dictionary and scan helper lemmas -/

theorem dictGet_dictSet_self {α β : Type} [DecidableEq α]
    (l : List (α × β)) (k : α) (v : β) : dictGet (dictSet l k v) k = some v := by
  induction l with
  | nil => simp [dictGet, dictSet]
  | cons kv rest ih =>
      by_cases h : kv.1 = k <;> simp [dictGet, dictSet, h, ih]

theorem dictGet_dictSet_ne {α β : Type} [DecidableEq α]
    (l : List (α × β)) (k' k : α) (v : β) (h : k' ≠ k) :
    dictGet (dictSet l k' v) k = dictGet l k := by
  induction l with
  | nil => simp [dictGet, dictSet, h]
  | cons kv rest ih =>
      obtain ⟨a, b⟩ := kv
      by_cases h1 : a = k'
      · subst h1
        simp [dictGet, dictSet, h]
      · simp [dictGet, dictSet, h1, ih]

theorem dictGet_mem {α β : Type} [DecidableEq α]
    {l : List (α × β)} {k : α} {v : β} (h : dictGet l k = some v) : (k, v) ∈ l := by
  induction l with
  | nil => simp [dictGet] at h
  | cons kv rest ih =>
      obtain ⟨a, b⟩ := kv
      by_cases h1 : a = k
      · subst h1
        simp [dictGet] at h
        subst h
        exact List.mem_cons_self _ _
      · simp [dictGet, h1] at h
        exact List.mem_cons_of_mem _ (ih h)

theorem dictGet_eq_none_iff {α β : Type} [DecidableEq α]
    {l : List (α × β)} {k : α} : dictGet l k = none ↔ ∀ v, (k, v) ∉ l := by
  induction l with
  | nil => simp [dictGet]
  | cons kv rest ih =>
      obtain ⟨a, b⟩ := kv
      by_cases h1 : a = k
      · subst h1
        simp only [dictGet, if_pos rfl]
        constructor
        · intro h
          exact absurd h (by simp)
        · intro hall
          exact absurd (List.mem_cons_self (a, b) rest) (hall b)
      · simp only [dictGet, if_neg h1, ih, List.mem_cons]
        constructor
        · intro hall v hor
          rcases hor with hor | hor
          · exact h1 ((Prod.mk.injEq .. ▸ hor).1.symm)
          · exact hall v hor
        · intro hall v hin
          exact hall v (Or.inr hin)

theorem dictGet_filter_of_nodup {α β : Type} [DecidableEq α]
    {l : List (α × β)} {k : α} {v : β} (p : α × β → Bool)
    (hnd : (l.map Prod.fst).Nodup) (h : dictGet l k = some v) :
    dictGet (l.filter p) k = if p (k, v) then some v else none := by
  induction l with
  | nil => simp [dictGet] at h
  | cons kv rest ih =>
      have hnd' : (rest.map Prod.fst).Nodup := (List.nodup_cons.mp hnd).2
      have hkv : kv.1 ∉ rest.map Prod.fst := (List.nodup_cons.mp hnd).1
      by_cases h1 : kv.1 = k
      · have hv : kv.2 = v := by simpa [dictGet, h1] using h
        have hkvv : kv = (k, v) := by
          rw [← h1, ← hv]
        subst hkvv
        by_cases hp : p (k, v)
        · simp [List.filter_cons, hp, dictGet]
        · have : dictGet (rest.filter p) k = none := by
            rw [dictGet_eq_none_iff]
            intro w hw
            exact hkv (by simpa using ⟨w, (List.mem_filter.mp hw).1⟩)
          simp [List.filter_cons, hp, this]
      · have h' : dictGet rest k = some v := by simpa [dictGet, h1] using h
        by_cases hp : p kv
        · simp [List.filter_cons, hp, dictGet, h1, ih hnd' h']
        · simp [List.filter_cons, hp, ih hnd' h']

theorem dictSet_mem {α β : Type} [DecidableEq α]
    {l : List (α × β)} {k : α} {v : β} {kv : α × β}
    (h : kv ∈ dictSet l k v) : kv ∈ l ∨ kv.2 = v := by
  induction l with
  | nil =>
      simp [dictSet] at h
      subst h
      exact Or.inr rfl
  | cons hd rest ih =>
      by_cases h1 : hd.1 = k
      · simp [dictSet, h1] at h
        rcases h with h | h
        · subst h
          exact Or.inr rfl
        · exact Or.inl (List.mem_cons_of_mem _ h)
      · simp [dictSet, h1] at h
        rcases h with h | h
        · exact Or.inl (by simp [h])
        · rcases ih h with h' | h'
          · exact Or.inl (List.mem_cons_of_mem _ h')
          · exact Or.inr h'

/-- Every loitering event of a scan comes from an entry of the scanned
list (and is built by `loiterEvent`). -/
theorem loiterScan_mem (st : DetectorState) :
    ∀ (l : List (ObjId × TrackInfo)) (e : AnomalyEvent), e ∈ loiterScan st l →
      ∃ kv, kv ∈ l ∧ e = loiterEvent st kv.1 kv.2 := by
  intro l
  induction l with
  | nil => intro e he; simp [loiterScan] at he
  | cons kv rest ih =>
      intro e he
      obtain ⟨k, ti⟩ := kv
      simp only [loiterScan, List.mem_append] at he
      rcases he with he | he
      · refine ⟨(k, ti), by simp, ?_⟩
        by_cases hc : ti.tclass = some "person" ∧ ti.stationary_time > loitering_threshold
        · simp only [if_pos hc] at he
          rcases hl : ti.positions.getLast? with _ | p <;> rw [hl] at he <;>
            simp at he
          exact he
        · simp [if_neg hc] at he
      · obtain ⟨kv', hkv', he'⟩ := ih e he
        exact ⟨kv', by simp [hkv'], he'⟩

/-- Every suspicious-movement event of a scan comes from an entry of the
scanned list (and is built by `suspiciousEvent`). -/
theorem suspiciousScan_mem (st : DetectorState) :
    ∀ (l : List (ObjId × TrackInfo)) (e : AnomalyEvent), e ∈ suspiciousScan st l →
      ∃ kv, kv ∈ l ∧ e = suspiciousEvent st kv.1 kv.2 := by
  intro l
  induction l with
  | nil => intro e he; simp [suspiciousScan] at he
  | cons kv rest ih =>
      intro e he
      obtain ⟨k, ti⟩ := kv
      simp only [suspiciousScan, List.mem_append] at he
      rcases he with he | he
      · refine ⟨(k, ti), by simp, ?_⟩
        by_cases hc : ti.tclass = some "person" ∧ ti.movement_history.length > 5
        · simp only [if_pos hc] at he
          by_cases h8 : ti.movement_history.length > 8
          · simp only [if_pos h8] at he
            split at he <;> simp at he
            exact he
          · simp [if_neg h8] at he
        · simp [if_neg hc] at he
      · obtain ⟨kv', hkv', he'⟩ := ih e he
        exact ⟨kv', by simp [hkv'], he'⟩

/-! ## C7 and C2: general theorems -/

/-- Claim C7 (amended): on an empty store, `find_or_create_object_id`
mints the id `(class, int(timestamp*1000))`: two minted ids are distinct
whenever the class labels differ or the timestamps fall in different
milliseconds; but two unmatched detections of the same class in the same
millisecond receive the very same id (second conjunct: distinct centers,
same id), which is how the C7 counterexample's merge arises. -/
theorem C7_fresh_id_same_class_same_millisecond :
    (∀ (c c' : String) (cx cy cx' cy' : ℤ) (t t' : ℚ),
        c ≠ c' ∨ truncQ (t * 1000) ≠ truncQ (t' * 1000) →
        find_or_create_object_id initialState c cx cy t ≠
          find_or_create_object_id initialState c' cx' cy' t') ∧
    find_or_create_object_id initialState "person" 0 0 0 =
      find_or_create_object_id initialState "person" 500 500 (1 / 2000) := by
  constructor
  · intro c c' cx cy cx' cy' t t' h
    simp only [find_or_create_object_id, initialState, List.foldl_nil]
    rcases h with h | h <;> simp [Prod.ext_iff, h]
  · with_unfolding_all decide

/-- Witness for C7: ids minted for different classes at the same instant
are distinct. -/
theorem C7_fresh_id_witness :
    find_or_create_object_id initialState "person" 0 0 0 ≠
      find_or_create_object_id initialState "car" 0 0 0 :=
  C7_fresh_id_same_class_same_millisecond.1 "person" "car" 0 0 0 0 0 0
    (Or.inl (by decide))

/-- A prefix of well-formed detections is processed successfully, and
appending a malformed detection makes the loop raise with exactly the
state the prefix produced (later detections are never reached). -/
theorem processDetections_wf_prefix (t : ℚ) (d : Detection)
    (hd : wellFormed d = false) :
    ∀ (pre : List Detection) (st : DetectorState) (cur : List ObjId),
      (∀ x ∈ pre, wellFormed x = true) →
      ∃ s' cur', processDetections st cur t pre = .ok (s', cur') ∧
        ∀ post, processDetections st cur t (pre ++ d :: post) = .error s' := by
  intro pre
  induction pre with
  | nil =>
      intro st cur _
      refine ⟨st, cur, rfl, fun post => ?_⟩
      rcases hc : d.dclass with _ | c
      · simp [processDetections, hc]
      · rcases hb : d.bbox with _ | b
        · simp [processDetections, hc, hb]
        · simp [wellFormed, hc, hb] at hd
  | cons x pre ih =>
      intro st cur hwf
      have hx : wellFormed x = true := hwf x (by simp)
      rcases hc : x.dclass with _ | c
      · simp [wellFormed, hc] at hx
      · rcases hb : x.bbox with _ | b
        · simp [wellFormed, hc, hb] at hx
        · obtain ⟨s', cur', hok, herr⟩ :=
            ih (updateOne st c b t).1 (cur ++ [(updateOne st c b t).2])
              (fun y hy => hwf y (by simp [hy]))
          refine ⟨s', cur', ?_, fun post => ?_⟩
          · simpa [processDetections, hc, hb] using hok
          · simpa [processDetections, hc, hb] using herr post

/-- Claim C2 (amended): a malformed detection does not crash the engine
but aborts the remainder of the frame: the (well-formed) detections
before it are associated as usual, the malformed one and everything
after it are not processed, the sweeper and all classifiers are
skipped, and `detect_anomalies` returns the empty event list together
with the partial tracking state produced by the prefix. -/
theorem C2_malformed_detection_aborts_frame (st : DetectorState)
    (pre post : List Detection) (d : Detection) (n : ℕ) (t : ℚ)
    (hpre : ∀ x ∈ pre, wellFormed x = true) (hd : wellFormed d = false) :
    ∃ s' cur', processDetections st [] t pre = .ok (s', cur') ∧
      detect_anomalies .fnone st (pre ++ d :: post) n t = ([], s') := by
  obtain ⟨s', cur', hok, herr⟩ :=
    processDetections_wf_prefix t d hd pre st [] hpre
  exact ⟨s', cur',  hok, by
    simp [detect_anomalies, update_tracking, herr post]⟩

/-- Witness for C2: the frame `[dPerson0, malformed]` at `t = 0` — the
prefix `[dPerson0]` processes fine, and the full frame returns no
events with exactly the prefix's state. -/
theorem C2_malformed_witness :
    ∃ s' cur', processDetections initialState [] 0 [dPerson0] = .ok (s', cur') ∧
      detect_anomalies .fnone initialState
        [dPerson0, ⟨some "person", 9 / 10, none⟩] 0 0 = ([], s') :=
  C2_malformed_detection_aborts_frame initialState [dPerson0] []
    ⟨some "person", 9 / 10, none⟩ 0 0 (by decide) (by decide)

/-! ## C8: the loitering classifier contract -/

/-- Core of C8 over an arbitrary scan list with unique keys. -/
theorem loiterScan_key (st : DetectorState) (k : ObjId) (ti : TrackInfo)
    (hpos : ti.positions ≠ []) :
    ∀ (l : List (ObjId × TrackInfo)), (l.map Prod.fst).Nodup → (k, ti) ∈ l →
      (((loiterScan st l).any fun e => decide (e.source = .track k)) = true ↔
        ti.tclass = some "person" ∧ ti.stationary_time > loitering_threshold) ∧
      ∀ e ∈ loiterScan st l, e.source = .track k →
        e.severity = if ti.stationary_time < 30 then "medium" else "high" := by
  intro l
  induction l with
  | nil => intro _ hmem; simp at hmem
  | cons kv rest ih =>
      intro hnd hmem
      obtain ⟨k', ti'⟩ := kv
      have hnd1 : k' ∉ rest.map Prod.fst := (List.nodup_cons.mp hnd).1
      have hnd2 : (rest.map Prod.fst).Nodup := (List.nodup_cons.mp hnd).2
      rcases List.mem_cons.mp hmem with hhd | htl
      · -- the tracked pair is the head entry
        have hk : k' = k := (Prod.mk.injEq .. ▸ hhd.symm).1
        have hti : ti' = ti := (Prod.mk.injEq .. ▸ hhd.symm).2
        subst hk
        subst hti
        have hrest : ∀ e ∈ loiterScan st rest, decide (e.source = .track k') = false := by
          intro e he
          obtain ⟨kv', hkv', he'⟩ := loiterScan_mem st rest e he
          have : kv'.1 ≠ k' := fun h =>
            hnd1 (h ▸ List.mem_map_of_mem Prod.fst hkv')
          simp [he', loiterEvent, this]
        obtain ⟨p, hp⟩ := List.getLast?_isSome.mpr hpos |> Option.isSome_iff_exists.mp
        constructor
        · by_cases hcond : ti'.tclass = some "person" ∧
              ti'.stationary_time > loitering_threshold
          · simp only [loiterScan, if_pos hcond, hp, List.any_append]
            simp [loiterEvent, hcond]
          · simp only [loiterScan, if_neg hcond, List.nil_append]
            constructor
            · intro hany
              obtain ⟨e, he, hsrc⟩ := List.any_eq_true.mp hany
              exact absurd hsrc (by simp [hrest e he])
            · intro h
              exact absurd h hcond
        · intro e he hsrc
          simp only [loiterScan, List.mem_append] at he
          rcases he with he | he
          · by_cases hcond : ti'.tclass = some "person" ∧
                ti'.stationary_time > loitering_threshold
            · simp only [if_pos hcond, hp] at he
              simp only [List.mem_singleton] at he
              simp [he, loiterEvent]
            · simp [if_neg hcond] at he
          · exact absurd (by simp [hsrc] : decide (e.source = .track k') = true)
              (by simp [hrest e he])
      · -- the tracked pair sits in the tail
        have hk : k' ≠ k := by
          intro h
          exact hnd1 (h ▸ List.mem_map_of_mem Prod.fst htl)
        have ihr := ih hnd2 htl
        have hblk : ∀ e ∈ loiterScan st [(k', ti')],
            decide (e.source = .track k) = false := by
          intro e he
          obtain ⟨kv', hkv', he'⟩ := loiterScan_mem st [(k', ti')] e he
          simp only [List.mem_singleton] at hkv'
          simp [he', hkv', loiterEvent, hk]
        have hsplit : loiterScan st ((k', ti') :: rest) =
            loiterScan st [(k', ti')] ++ loiterScan st rest := by
          simp [loiterScan]
        constructor
        · rw [hsplit, List.any_append]
          constructor
          · intro hor
            rcases Bool.or_eq_true_iff.mp hor with h | h
            · obtain ⟨e, he, hsrc⟩ := List.any_eq_true.mp h
              exact absurd hsrc (by simp [hblk e he])
            · exact ihr.1.mp h
          · intro h
            exact Bool.or_eq_true_iff.mpr (Or.inr (ihr.1.mpr h))
        · intro e he hsrc
          rw [hsplit] at he
          rcases List.mem_append.mp he with he | he
          · exact absurd (by simp [hsrc] : decide (e.source = .track k) = true)
              (by simp [hblk e he])
          · exact ihr.2 e he hsrc

/-- Claim C8: for any track `(k, ti)` of the store (keys unique,
position history non-empty — every reachable track has one), a
loitering event for that track is emitted iff its class is `"person"`
and its accumulated `stationary_time` strictly exceeds 10.0 s; any such
event carries severity `"medium"` when `stationary_time < 30` and
`"high"` otherwise (the flip is exactly at `stationary_time = 30`). -/
theorem C8_loitering_iff_severity (st : DetectorState) (t : ℚ) (k : ObjId)
    (ti : TrackInfo) (hnd : (st.tracks.map Prod.fst).Nodup)
    (hmem : (k, ti) ∈ st.tracks) (hpos : ti.positions ≠ []) :
    (((detect_loitering st t).any fun e => decide (e.source = .track k)) = true ↔
      ti.tclass = some "person" ∧ ti.stationary_time > loitering_threshold) ∧
    ∀ e ∈ detect_loitering st t, e.source = .track k →
      e.severity = if ti.stationary_time < 30 then "medium" else "high" :=
  loiterScan_key st k ti hpos st.tracks hnd hmem

/-- Witness for C8: a single-track store with `stationary_time = 12`
does emit a loitering event for its track. -/
theorem C8_loitering_witness :
    ((detect_loitering
        ⟨[(("person", 0),
            ⟨[(5, 5, 0)], some 0, some 0, 12, [], some "person"⟩)], []⟩ 0).any
      fun e => decide (e.source = .track ("person", 0))) = true :=
  (C8_loitering_iff_severity
      ⟨[(("person", 0),
          ⟨[(5, 5, 0)], some 0, some 0, 12, [], some "person"⟩)], []⟩
      0 ("person", 0) ⟨[(5, 5, 0)], some 0, some 0, 12, [], some "person"⟩
      (by with_unfolding_all decide) (by with_unfolding_all decide)
      (by with_unfolding_all decide)).1.mpr
    ⟨rfl, by with_unfolding_all decide⟩

/-! ## C9: history capacities, FIFO eviction, stationary-time law -/

/-- A deque append never exceeds the capacity. -/
theorem dequeAppend_length_le {α : Type} (cap : ℕ) (l : List α) (x : α) :
    (dequeAppend cap l x).length ≤ cap := by
  simp only [dequeAppend, List.length_drop, List.length_append, List.length_singleton]
  omega

/-- FIFO shape of a deque append: the survivors are the most recent
entries of the old list, in order, followed by the new element. -/
theorem dequeAppend_eq_drop_append {α : Type} (cap : ℕ) (hcap : 1 ≤ cap)
    (l : List α) (x : α) :
    dequeAppend cap l x = l.drop (l.length + 1 - cap) ++ [x] := by
  unfold dequeAppend
  rw [List.drop_append_of_le_length (by omega)]

/-- The last element of a non-trivial suffix is the last element of the
whole list. -/
theorem getLast?_drop_of_lt {α : Type} (l : List α) (m : ℕ) (h : m < l.length) :
    (l.drop m).getLast? = l.getLast? := by
  conv_rhs => rw [← List.take_append_drop m l]
  rw [List.getLast?_append_of_ne_nil]
  intro hnil
  have := congrArg List.length hnil
  simp [List.length_drop] at this
  omega

/-- `applyDetection` keeps both histories within their capacities. -/
theorem applyDetection_bounds (ti : TrackInfo) (cx cy : ℤ) (t : ℚ)
    (cls : String) (h : ti.movement_history.length ≤ 10) :
    trackBoundsOK (applyDetection ti cx cy t cls) := by
  simp only [applyDetection, trackBoundsOK]
  repeat' split
  all_goals constructor <;> simp [dequeAppend_length_le, h]

/-- One association step keeps every stored track within bounds. -/
theorem updateOne_bounds (st : DetectorState) (cls : String) (bb : BBox)
    (t : ℚ) (h : ∀ kv ∈ st.tracks, trackBoundsOK kv.2) :
    ∀ kv ∈ (updateOne st cls bb t).1.tracks, trackBoundsOK kv.2 := by
  intro kv hkv
  simp only [updateOne] at hkv
  rcases dictSet_mem hkv with h' | h'
  · exact h kv h'
  · rw [h']
    apply applyDetection_bounds
    rcases hget : dictGet st.tracks
        (find_or_create_object_id st cls (bb.x + bb.w.fdiv 2)
          (bb.y + bb.h.fdiv 2) t) with _ | v
    · simp [defaultTrack]
    · simpa using (h _ (dictGet_mem hget)).2

/-- The whole detection loop keeps every stored track within bounds,
whether it completes or raises on a malformed detection. -/
theorem processDetections_bounds (t : ℚ) :
    ∀ (dets : List Detection) (st : DetectorState) (cur : List ObjId),
      (∀ kv ∈ st.tracks, trackBoundsOK kv.2) →
      (∀ s cur', processDetections st cur t dets = .ok (s, cur') →
          ∀ kv ∈ s.tracks, trackBoundsOK kv.2) ∧
      (∀ s, processDetections st cur t dets = .error s →
          ∀ kv ∈ s.tracks, trackBoundsOK kv.2) := by
  intro dets
  induction dets with
  | nil =>
      intro st cur h
      constructor
      · intro s cur' heq
        simp only [processDetections, Except.ok.injEq, Prod.mk.injEq] at heq
        rw [← heq.1]
        exact h
      · intro s heq
        simp [processDetections] at heq
  | cons d rest ih =>
      intro st cur h
      rcases hc : d.dclass with _ | c
      · constructor
        · intro s cur' heq
          simp [processDetections, hc] at heq
        · intro s heq
          simp only [processDetections, hc, Except.error.injEq] at heq
          rw [← heq]
          exact h
      · rcases hb : d.bbox with _ | b
        · constructor
          · intro s cur' heq
            simp [processDetections, hc, hb] at heq
          · intro s heq
            simp only [processDetections, hc, hb, Except.error.injEq] at heq
            rw [← heq]
            exact h
        · have h' := updateOne_bounds st c b t h
          have hrec := ih (updateOne st c b t).1
            (cur ++ [(updateOne st c b t).2]) h'
          constructor
          · intro s cur' heq
            simp only [processDetections, hc, hb] at heq
            exact hrec.1 s cur' heq
          · intro s heq
            simp only [processDetections, hc, hb] at heq
            exact hrec.2 s heq

/-- The facade keeps every stored track within bounds. -/
theorem detect_anomalies_bounds (f : Fault) (st : DetectorState)
    (dets : List Detection) (n : ℕ) (t : ℚ)
    (h : ∀ kv ∈ st.tracks, trackBoundsOK kv.2) :
    ∀ kv ∈ (detect_anomalies f st dets n t).2.tracks, trackBoundsOK kv.2 := by
  have hp := processDetections_bounds t dets st [] h
  unfold detect_anomalies update_tracking
  rcases hres : processDetections st [] t dets with s | sc
  · simpa using hp.2 s hres
  · obtain ⟨s, cur⟩ := sc
    have hs := hp.1 s cur hres
    have hclean : ∀ kv ∈ (cleanup_old_objects s t cur).tracks,
        trackBoundsOK kv.2 := by
      intro kv hkv
      exact hs kv (List.mem_of_mem_filter hkv)
    rcases f with _ | _
    · simpa [detect_abandoned_objects] using hclean
    · simpa using hclean

/-- The stationary-time law of one `applyDetection` step: starting from
the track's previous last position `p`, the accumulated time grows by
the inter-sample delta exactly when the squared step distance is below
`movement_threshold²` (i.e. the true step distance is below 20), and
resets to 0 otherwise. -/
theorem applyDetection_stationary (ti : TrackInfo) (cx cy : ℤ) (t : ℚ)
    (cls : String) (p : ℤ × ℤ × ℚ) (hp : ti.positions.getLast? = some p) :
    (applyDetection ti cx cy t cls).stationary_time =
      if (cx - p.1) ^ 2 + (cy - p.2.1) ^ 2 < movement_threshold ^ 2
      then ti.stationary_time + (t - p.2.2) else 0 := by
  have hne : ti.positions ≠ [] := by
    intro hnil
    rw [hnil] at hp
    simp at hp
  have hL : 1 ≤ ti.positions.length := List.length_pos.mpr hne
  have hdrop : dequeAppend 30 ti.positions (cx, cy, t) =
      ti.positions.drop (ti.positions.length + 1 - 30) ++ [(cx, cy, t)] :=
    dequeAppend_eq_drop_append 30 (by omega) ti.positions (cx, cy, t)
  have hlen : (dequeAppend 30 ti.positions (cx, cy, t)).length > 1 := by
    rw [hdrop]
    simp only [List.length_append, List.length_drop, List.length_singleton]
    omega
  have hlast : (dequeAppend 30 ti.positions (cx, cy, t)).getLast? =
      some (cx, cy, t) := by
    rw [hdrop]
    exact List.getLast?_concat _
  have hprev : (dequeAppend 30 ti.positions (cx, cy, t)).dropLast.getLast? =
      some p := by
    rw [hdrop, List.dropLast_concat, getLast?_drop_of_lt _ _ (by omega)]
    exact hp
  simp only [applyDetection, hlen, if_true, hlast, hprev]
  split <;> rfl

/-- Claim C9: (1) any frame processed by the facade keeps every track's
`position_history` within 30 entries and `movement_history` within 10;
(2)–(3) a deque append at capacity evicts exactly the oldest entries:
the result is a suffix of the old list (survivors in FIFO order)
followed by the new element, and never exceeds the capacity; (4) one
association step resets `stationary_time` to 0 exactly when the
recorded step distance is ≥ `movement_threshold` (squared comparison,
equivalent for the true distance) and otherwise increases it by the
inter-sample time delta. -/
theorem C9_history_bounds_and_stationary :
    (∀ (f : Fault) (st : DetectorState) (dets : List Detection) (n : ℕ) (t : ℚ),
        (∀ kv ∈ st.tracks, trackBoundsOK kv.2) →
        ∀ kv ∈ (detect_anomalies f st dets n t).2.tracks, trackBoundsOK kv.2) ∧
    (∀ (l : List (ℤ × ℤ × ℚ)) (x : ℤ × ℤ × ℚ),
        (dequeAppend 30 l x).length ≤ 30 ∧
        dequeAppend 30 l x = l.drop (l.length + 1 - 30) ++ [x]) ∧
    (∀ (l : List ℚ) (x : ℚ),
        (dequeAppend 10 l x).length ≤ 10 ∧
        dequeAppend 10 l x = l.drop (l.length + 1 - 10) ++ [x]) ∧
    (∀ (ti : TrackInfo) (cx cy : ℤ) (t : ℚ) (cls : String) (p : ℤ × ℤ × ℚ),
        ti.positions.getLast? = some p →
        (applyDetection ti cx cy t cls).stationary_time =
          if (cx - p.1) ^ 2 + (cy - p.2.1) ^ 2 < movement_threshold ^ 2
          then ti.stationary_time + (t - p.2.2) else 0) :=
  ⟨detect_anomalies_bounds,
   fun l x => ⟨dequeAppend_length_le 30 l x,
     dequeAppend_eq_drop_append 30 (by omega) l x⟩,
   fun l x => ⟨dequeAppend_length_le 10 l x,
     dequeAppend_eq_drop_append 10 (by omega) l x⟩,
   applyDetection_stationary⟩

/-- Witness for C9: one association step on a single-position track,
moving from `(0,0)` at time 0 to `(5,5)` at time 1 (step below the
movement threshold), adds the 1-second delta to `stationary_time`. -/
theorem C9_history_witness :
    (applyDetection ⟨[(0, 0, 0)], some 0, some 0, 0, [], some "person"⟩
        5 5 1 "person").stationary_time =
      if ((5 : ℤ) - 0) ^ 2 + ((5 : ℤ) - 0) ^ 2 < movement_threshold ^ 2
      then (0 : ℚ) + (1 - 0) else 0 :=
  C9_history_bounds_and_stationary.2.2.2
    ⟨[(0, 0, 0)], some 0, some 0, 0, [], some "person"⟩ 5 5 1 "person"
    (0, 0, 0) rfl

/-! ## C4: the abandoned-object classifier confirms at most once -/

theorem eventsForKey_append (k : CKey) (a b : List AnomalyEvent) :
    eventsForKey k (a ++ b) = eventsForKey k a ++ eventsForKey k b := by
  simp [eventsForKey]

/-- How one iteration of the abandoned-object loop can affect the
candidate entry and the events of a fixed key `k`: it leaves them
unchanged, creates a fresh unconfirmed candidate `(t, d, false)` when
the key was absent, or — when an unconfirmed candidate older than the
threshold exists — emits exactly one event for `k` and confirms it. -/
theorem abandonedStep1_key (dets : List Detection) (t : ℚ) (cs : CandMap)
    (d : Detection) (k : CKey) :
    (eventsForKey k (abandonedStep1 dets t cs d).1 = [] ∧
       dictGet (abandonedStep1 dets t cs d).2 k = dictGet cs k) ∨
    (eventsForKey k (abandonedStep1 dets t cs d).1 = [] ∧
       dictGet cs k = none ∧
       dictGet (abandonedStep1 dets t cs d).2 k = some ⟨t, d, false⟩) ∨
    (∃ ci, dictGet cs k = some ci ∧ ci.confirmed = false ∧
       t - ci.first_seen > abandoned_object_threshold ∧
       (abandonedStep1 dets t cs d).1 = [abandonedEvent k ci d] ∧
       dictGet (abandonedStep1 dets t cs d).2 k =
         some ⟨ci.first_seen, ci.det, true⟩) := by
  simp only [abandonedStep1]
  by_cases hcls : detClass d = "person"
  · simp only [if_pos hcls]
    exact Or.inl ⟨rfl, trivial⟩
  · simp only [if_neg hcls]
    by_cases hnear : (dets.any fun o =>
        decide (detClass o = "person") &&
          decide ((centerX d - centerX o) ^ 2 +
            (centerY d - centerY o) ^ 2 < 22500)) = true
    · simp only [hnear, if_true]
      exact Or.inl ⟨rfl, trivial⟩
    · simp only [Bool.not_eq_true] at hnear
      simp only [hnear, Bool.false_eq_true, if_false]
      rcases hg : dictGet cs (detClass d, centerX d, centerY d) with _ | ci
      · by_cases hk : (detClass d, centerX d, centerY d) = k
        · refine Or.inr (Or.inl ⟨rfl, ?_, ?_⟩)
          · rw [← hk]
            exact hg
          · rw [← hk]
            exact dictGet_dictSet_self cs _ _
        · exact Or.inl ⟨rfl, dictGet_dictSet_ne cs _ k _ hk⟩
      · by_cases hcond : t - ci.first_seen > abandoned_object_threshold ∧
            ci.confirmed = false
        · simp only [if_pos hcond]
          by_cases hk : (detClass d, centerX d, centerY d) = k
          · refine Or.inr (Or.inr ⟨ci, ?_, hcond.2, hcond.1, ?_, ?_⟩)
            · rw [← hk]
              exact hg
            · rw [← hk]
            · rw [← hk]
              exact dictGet_dictSet_self cs _ _
          · refine Or.inl ⟨?_, dictGet_dictSet_ne cs _ k _ hk⟩
            simp [eventsForKey, abandonedEvent, hk]
        · simp only [if_neg hcond]
          exact Or.inl ⟨rfl, trivial⟩

/-- Evolution of one key across the whole abandoned-object loop:
a confirmed candidate is silent and untouched; every emitted event for
the key presupposes an unconfirmed, over-threshold candidate in the
incoming registry and confirms it; and at most one event per key is
emitted per call. -/
theorem abandonedScan_key (all : List Detection) (t : ℚ) (k : CKey) :
    ∀ (scan : List Detection) (cs : CandMap),
      (∀ ci, dictGet cs k = some ci → ci.confirmed = true →
          eventsForKey k (abandonedScan all t cs scan).1 = [] ∧
          dictGet (abandonedScan all t cs scan).2 k = some ci) ∧
      (∀ e ∈ (abandonedScan all t cs scan).1, e.source = .cand k →
          ∃ ci, dictGet cs k = some ci ∧ ci.confirmed = false ∧
            t - ci.first_seen > abandoned_object_threshold ∧
            dictGet (abandonedScan all t cs scan).2 k =
              some ⟨ci.first_seen, ci.det, true⟩) ∧
      (eventsForKey k (abandonedScan all t cs scan).1).length ≤ 1 := by
  intro scan
  induction scan with
  | nil =>
      intro cs
      refine ⟨fun ci hg _ => ⟨rfl, hg⟩, ?_, ?_⟩
      · intro e he
        simp [abandonedScan] at he
      · simp [abandonedScan, eventsForKey]
  | cons d rest ih =>
      intro cs
      have hsc : abandonedScan all t cs (d :: rest) =
          ((abandonedStep1 all t cs d).1 ++
            (abandonedScan all t (abandonedStep1 all t cs d).2 rest).1,
           (abandonedScan all t (abandonedStep1 all t cs d).2 rest).2) := rfl
      have ihr := ih (abandonedStep1 all t cs d).2
      rcases abandonedStep1_key all t cs d k with
        ⟨hA, hC⟩ | ⟨hA, hgnone, hC⟩ | ⟨ci0, hg0, hcf0, hthr0, hA, hC⟩
      · -- the step does not touch key k
        refine ⟨?_, ?_, ?_⟩
        · intro ci hg hconf
          have hg1 : dictGet (abandonedStep1 all t cs d).2 k = some ci :=
            hC.trans hg
          obtain ⟨hB, hfin⟩ := ihr.1 ci hg1 hconf
          rw [hsc]
          exact ⟨by simp [eventsForKey_append, hA, hB], hfin⟩
        · intro e he hsrc
          rw [hsc] at he
          rcases List.mem_append.mp he with he | he
          · have : e ∈ eventsForKey k (abandonedStep1 all t cs d).1 :=
              List.mem_filter.mpr ⟨he, by simp [hsrc]⟩
            rw [hA] at this
            simp at this
          · obtain ⟨ci, hg1, hcf, hthr, hfin⟩ := ihr.2.1 e he hsrc
            rw [hC] at hg1
            rw [hsc]
            exact ⟨ci, hg1, hcf, hthr, hfin⟩
        · rw [hsc]
          simpa [eventsForKey_append, hA] using ihr.2.2
      · -- the step created a fresh unconfirmed candidate for k
        have hBnil : eventsForKey k
            (abandonedScan all t (abandonedStep1 all t cs d).2 rest).1 = [] := by
          rw [eventsForKey, List.filter_eq_nil_iff]
          intro e he hp
          obtain ⟨ci, hg1, hcf, hthr, _⟩ :=
            ihr.2.1 e he (of_decide_eq_true hp)
          rw [hC] at hg1
          injection hg1 with h1
          rw [← h1] at hthr
          simp [abandoned_object_threshold] at hthr
          exact absurd hthr (by norm_num)
        refine ⟨?_, ?_, ?_⟩
        · intro ci hg hconf
          rw [hgnone] at hg
          exact Option.noConfusion hg
        · intro e he hsrc
          rw [hsc] at he
          rcases List.mem_append.mp he with he | he
          · have : e ∈ eventsForKey k (abandonedStep1 all t cs d).1 :=
              List.mem_filter.mpr ⟨he, by simp [hsrc]⟩
            rw [hA] at this
            simp at this
          · have : e ∈ eventsForKey k
                (abandonedScan all t (abandonedStep1 all t cs d).2 rest).1 :=
              List.mem_filter.mpr ⟨he, by simp [hsrc]⟩
            rw [hBnil] at this
            simp at this
        · rw [hsc]
          simp [eventsForKey_append, hA, hBnil]
      · -- the step emitted the (single) event for k and confirmed it
        obtain ⟨hB, hfin⟩ := ihr.1 ⟨ci0.first_seen, ci0.det, true⟩ hC rfl
        refine ⟨?_, ?_, ?_⟩
        · intro ci hg hconf
          rw [hg0] at hg
          injection hg with h1
          rw [← h1] at hconf
          rw [hcf0] at hconf
          exact Bool.noConfusion hconf
        · intro e he hsrc
          rw [hsc] at he
          rcases List.mem_append.mp he with he | he
          · rw [hA] at he
            simp only [List.mem_singleton] at he
            subst he
            exact ⟨ci0, hg0, hcf0, hthr0, by rw [hsc]; exact hfin⟩
          · obtain ⟨ci, hg1, hcf, hthr, _⟩ := ihr.2.1 e he hsrc
            rw [hC] at hg1
            injection hg1 with h1
            rw [← h1] at hcf
            exact Bool.noConfusion hcf
        · rw [hsc]
          have hAk : eventsForKey k [abandonedEvent k ci0 d] =
              [abandonedEvent k ci0 d] := by
            simp [eventsForKey, abandonedEvent]
          rw [eventsForKey_append, hA, hAk, hB]
          simp

/-- Claim C4 (amended): per call, `detect_abandoned_objects` emits at
most one event per candidate key; an event for key `k` requires an
unconfirmed candidate for `k` already over the strict 5 s threshold
(`t - first_seen > 5`), whatever happened — person nearby, or no
observation at all — at intermediate times, and the emission
irreversibly confirms the candidate; a confirmed candidate emits
nothing and is left unchanged; and the sweeper removes a candidate
exactly when more than 60 s have elapsed since its `first_seen`,
regardless of confirmation. -/
theorem C4_abandoned_once_per_candidate (st : DetectorState)
    (dets : List Detection) (t : ℚ) (k : CKey) :
    (∀ ci, dictGet st.cands k = some ci → ci.confirmed = true →
        eventsForKey k (detect_abandoned_objects st dets t).1 = [] ∧
        dictGet (detect_abandoned_objects st dets t).2.cands k = some ci) ∧
    (∀ e ∈ (detect_abandoned_objects st dets t).1, e.source = .cand k →
        ∃ ci, dictGet st.cands k = some ci ∧ ci.confirmed = false ∧
          t - ci.first_seen > abandoned_object_threshold ∧
          dictGet (detect_abandoned_objects st dets t).2.cands k =
            some ⟨ci.first_seen, ci.det, true⟩) ∧
    ((eventsForKey k (detect_abandoned_objects st dets t).1).length ≤ 1) ∧
    (∀ (st' : DetectorState) (t' : ℚ) (cur : List ObjId) (ci : CandInfo),
        (st'.cands.map Prod.fst).Nodup → dictGet st'.cands k = some ci →
        dictGet (cleanup_old_objects st' t' cur).cands k =
          if t' - ci.first_seen > 60 then none else some ci) := by
  have h := abandonedScan_key dets t k dets st.cands
  refine ⟨h.1, h.2.1, h.2.2, ?_⟩
  intro st' t' cur ci hnd hg
  have : dictGet (st'.cands.filter
      (fun kv => !(decide (t' - kv.2.first_seen > 60)))) k =
      if (!(decide (t' - ci.first_seen > 60))) = true then some ci else none :=
    dictGet_filter_of_nodup _ hnd hg
  rw [show (cleanup_old_objects st' t' cur).cands =
      st'.cands.filter (fun kv => !(decide (t' - kv.2.first_seen > 60))) from rfl,
    this]
  by_cases h60 : t' - ci.first_seen > 60 <;> simp [h60]

/-- Witness for C4: a registry holding an already-confirmed candidate
for the backpack key emits nothing for that key and leaves the entry
unchanged. -/
theorem C4_abandoned_witness :
    eventsForKey ("backpack", 205, 205)
        (detect_abandoned_objects
          ⟨[], [(("backpack", 205, 205), ⟨0, bpDet, true⟩)]⟩ [bpDet] 6).1 = [] ∧
    dictGet (detect_abandoned_objects
        ⟨[], [(("backpack", 205, 205), ⟨0, bpDet, true⟩)]⟩ [bpDet] 6).2.cands
      ("backpack", 205, 205) = some ⟨0, bpDet, true⟩ :=
  (C4_abandoned_once_per_candidate
      ⟨[], [(("backpack", 205, 205), ⟨0, bpDet, true⟩)]⟩ [bpDet] 6
      ("backpack", 205, 205)).1 ⟨0, bpDet, true⟩
    (by with_unfolding_all decide) rfl

/-! ## C3: the sweeper runs before the classifiers -/

/-- The matched-id accumulator of the detection loop only grows. -/
theorem processDetections_cur_mono (t : ℚ) :
    ∀ (dets : List Detection) (st : DetectorState) (cur : List ObjId)
      (s : DetectorState) (cur' : List ObjId),
      processDetections st cur t dets = .ok (s, cur') →
      ∀ x ∈ cur, x ∈ cur' := by
  intro dets
  induction dets with
  | nil =>
      intro st cur s cur' hok x hx
      simp only [processDetections, Except.ok.injEq, Prod.mk.injEq] at hok
      rw [← hok.2]
      exact hx
  | cons d rest ih =>
      intro st cur s cur' hok x hx
      rcases hc : d.dclass with _ | c
      · simp [processDetections, hc] at hok
      · rcases hb : d.bbox with _ | b
        · simp [processDetections, hc, hb] at hok
        · simp only [processDetections, hc, hb] at hok
          exact ih _ _ _ _ hok x (by simp [hx])

/-- A step of the loop leaves the entries of every other id unchanged. -/
theorem updateOne_tracks_ne (st : DetectorState) (cls : String) (bb : BBox)
    (t : ℚ) (k : ObjId) (h : (updateOne st cls bb t).2 ≠ k) :
    dictGet (updateOne st cls bb t).1.tracks k = dictGet st.tracks k := by
  simp only [updateOne] at h ⊢
  exact dictGet_dictSet_ne _ _ _ _ h

/-- A track whose id is not in the frame's matched-id set is untouched
by the whole detection loop. -/
theorem processDetections_unmatched (t : ℚ) :
    ∀ (dets : List Detection) (st : DetectorState) (cur : List ObjId)
      (s : DetectorState) (cur' : List ObjId) (k : ObjId),
      processDetections st cur t dets = .ok (s, cur') → k ∉ cur' →
      dictGet s.tracks k = dictGet st.tracks k := by
  intro dets
  induction dets with
  | nil =>
      intro st cur s cur' k hok _
      simp only [processDetections, Except.ok.injEq, Prod.mk.injEq] at hok
      rw [← hok.1]
  | cons d rest ih =>
      intro st cur s cur' k hok hk
      rcases hc : d.dclass with _ | c
      · simp [processDetections, hc] at hok
      · rcases hb : d.bbox with _ | b
        · simp [processDetections, hc, hb] at hok
        · simp only [processDetections, hc, hb] at hok
          have hoid : (updateOne st c b t).2 ∈ cur' :=
            processDetections_cur_mono t rest _ _ _ _ hok _ (by simp)
          have hne : (updateOne st c b t).2 ≠ k := fun h => hk (h ▸ hoid)
          rw [ih _ _ _ _ k hok hk]
          exact updateOne_tracks_ne st c b t k hne

/-- An entry of a dict write is an old entry or carries the written key. -/
theorem dictSet_mem_key {α β : Type} [DecidableEq α]
    {l : List (α × β)} {k : α} {v : β} {kv : α × β}
    (h : kv ∈ dictSet l k v) : kv ∈ l ∨ kv.1 = k := by
  induction l with
  | nil =>
      simp [dictSet] at h
      subst h
      exact Or.inr rfl
  | cons hd rest ih =>
      by_cases h1 : hd.1 = k
      · simp [dictSet, h1] at h
        rcases h with h | h
        · subst h
          exact Or.inr rfl
        · exact Or.inl (List.mem_cons_of_mem _ h)
      · simp [dictSet, h1] at h
        rcases h with h | h
        · exact Or.inl (by simp [h])
        · rcases ih h with h' | h'
          · exact Or.inl (List.mem_cons_of_mem _ h')
          · exact Or.inr h'

/-- A dict write preserves uniqueness of the keys. -/
theorem dictSet_keys_nodup {α β : Type} [DecidableEq α]
    {l : List (α × β)} (k : α) (v : β)
    (hnd : (l.map Prod.fst).Nodup) :
    ((dictSet l k v).map Prod.fst).Nodup := by
  induction l with
  | nil => simp [dictSet]
  | cons hd rest ih =>
      have h1 : hd.1 ∉ rest.map Prod.fst :=
        (List.nodup_cons.mp (by simpa using hnd)).1
      have h2 : (rest.map Prod.fst).Nodup :=
        (List.nodup_cons.mp (by simpa using hnd)).2
      by_cases hk : hd.1 = k
      · simpa [dictSet, hk] using hnd
      · simp only [dictSet, if_neg hk, List.map_cons, List.nodup_cons]
        refine ⟨?_, ih h2⟩
        intro hmem
        obtain ⟨kv', hkv', hfst⟩ := List.mem_map.mp hmem
        rcases dictSet_mem_key hkv' with h' | h'
        · exact h1 (hfst ▸ List.mem_map_of_mem Prod.fst h')
        · exact hk (hfst ▸ h')

/-- A step of the loop preserves uniqueness of the stored track ids. -/
theorem updateOne_keys_nodup (st : DetectorState) (cls : String) (bb : BBox)
    (t : ℚ) (hnd : (st.tracks.map Prod.fst).Nodup) :
    (((updateOne st cls bb t).1.tracks).map Prod.fst).Nodup := by
  simp only [updateOne]
  exact dictSet_keys_nodup _ _ hnd

/-- The whole detection loop preserves uniqueness of the track ids. -/
theorem processDetections_keys_nodup (t : ℚ) :
    ∀ (dets : List Detection) (st : DetectorState) (cur : List ObjId)
      (s : DetectorState) (cur' : List ObjId),
      processDetections st cur t dets = .ok (s, cur') →
      (st.tracks.map Prod.fst).Nodup → (s.tracks.map Prod.fst).Nodup := by
  intro dets
  induction dets with
  | nil =>
      intro st cur s cur' hok hnd
      simp only [processDetections, Except.ok.injEq, Prod.mk.injEq] at hok
      rw [← hok.1]
      exact hnd
  | cons d rest ih =>
      intro st cur s cur' hok hnd
      rcases hc : d.dclass with _ | c
      · simp [processDetections, hc] at hok
      · rcases hb : d.bbox with _ | b
        · simp [processDetections, hc, hb] at hok
        · simp only [processDetections, hc, hb] at hok
          exact ih _ _ _ _ hok (updateOne_keys_nodup st c b t hnd)

/-- One abandoned-object iteration emits nothing or a single event
keyed by the detection's candidate key. -/
theorem abandonedStep1_shape (dets : List Detection) (t : ℚ) (cs : CandMap)
    (d : Detection) :
    (abandonedStep1 dets t cs d).1 = [] ∨
    ∃ ci, (abandonedStep1 dets t cs d).1 =
      [abandonedEvent (detClass d, centerX d, centerY d) ci d] := by
  simp only [abandonedStep1]
  by_cases hcls : detClass d = "person"
  · simp [if_pos hcls]
  · simp only [if_neg hcls]
    by_cases hnear : (dets.any fun o =>
        decide (detClass o = "person") &&
          decide ((centerX d - centerX o) ^ 2 +
            (centerY d - centerY o) ^ 2 < 22500)) = true
    · simp [hnear]
    · simp only [Bool.not_eq_true] at hnear
      simp only [hnear, Bool.false_eq_true, if_false]
      rcases dictGet cs (detClass d, centerX d, centerY d) with _ | ci
      · simp
      · by_cases hcond : t - ci.first_seen > abandoned_object_threshold ∧
            ci.confirmed = false
        · simp only [if_pos hcond]
          exact Or.inr ⟨ci, rfl⟩
        · simp [if_neg hcond]

/-- Every event of the abandoned-object classifier is keyed by a
candidate key (never by a track id). -/
theorem abandonedScan_sources (all : List Detection) (t : ℚ) :
    ∀ (scan : List Detection) (cs : CandMap) (e : AnomalyEvent),
      e ∈ (abandonedScan all t cs scan).1 → ∃ ck, e.source = .cand ck := by
  intro scan
  induction scan with
  | nil =>
      intro cs e he
      simp [abandonedScan] at he
  | cons d rest ih =>
      intro cs e he
      have hsc : abandonedScan all t cs (d :: rest) =
          ((abandonedStep1 all t cs d).1 ++
            (abandonedScan all t (abandonedStep1 all t cs d).2 rest).1,
           (abandonedScan all t (abandonedStep1 all t cs d).2 rest).2) := rfl
      rw [hsc] at he
      rcases List.mem_append.mp he with he | he
      · rcases abandonedStep1_shape all t cs d with h | ⟨ci, h⟩
        · rw [h] at he
          simp at he
        · rw [h] at he
          simp only [List.mem_singleton] at he
          subst he
          exact ⟨_, rfl⟩
      · exact ih _ e he

/-- Claim C3 (amended): the sweeper runs inside `update_tracking`,
before any classifier.  On any frame whose detection loop completes,
a stored track matched by none of the frame's detections (its id is
outside the loop's matched-id set) and whose (truthy, non-zero)
`last_seen` is more than 5 s old is removed before classification:
no event of the frame refers to it and it is absent from the store
afterwards. -/
theorem C3_sweeper_runs_before_classifiers (st : DetectorState) (n : ℕ)
    (t : ℚ) (dets : List Detection) (k : ObjId) (ti : TrackInfo) (ls : ℚ)
    (s : DetectorState) (cur : List ObjId)
    (hnd : (st.tracks.map Prod.fst).Nodup)
    (hget : dictGet st.tracks k = some ti)
    (hls : ti.last_seen = some ls) (hne : ls ≠ 0) (hstale : t - ls > 5)
    (hok : processDetections st [] t dets = .ok (s, cur))
    (hunmatched : k ∉ cur) :
    (∀ e ∈ (detect_anomalies .fnone st dets n t).1, e.source ≠ .track k) ∧
    dictGet (detect_anomalies .fnone st dets n t).2.tracks k = none := by
  have hpres : dictGet s.tracks k = some ti :=
    (processDetections_unmatched t dets st [] s cur k hok hunmatched).trans hget
  have hnds : (s.tracks.map Prod.fst).Nodup :=
    processDetections_keys_nodup t dets st [] s cur hok hnd
  have hstaleB : staleTrack cur t (k, ti) = true := by
    simp [staleTrack, hls, hne, hstale, hunmatched]
  have hnone : dictGet (cleanup_old_objects s t cur).tracks k = none := by
    rw [show (cleanup_old_objects s t cur).tracks =
        s.tracks.filter (fun kv => !staleTrack cur t kv) from rfl,
      dictGet_filter_of_nodup _ hnds hpres, hstaleB]
    simp
  have hut : update_tracking st dets t = .ok (cleanup_old_objects s t cur) := by
    simp [update_tracking, hok]
  constructor
  · intro e he hsrc
    simp only [detect_anomalies, hut, detect_abandoned_objects,
      detect_zone_violations, List.append_nil] at he
    rcases List.mem_append.mp he with he | he
    · rcases List.mem_append.mp he with he | he
      · obtain ⟨kv, hkv, hev⟩ := loiterScan_mem _ _ e he
        rw [hev] at hsrc
        have hk1 : kv.1 = k := by simpa [loiterEvent] using hsrc
        have hmem : (k, kv.2) ∈ (cleanup_old_objects s t cur).tracks := by
          rw [← hk1]
          simpa using hkv
        exact absurd hmem (dictGet_eq_none_iff.mp hnone kv.2)
      · obtain ⟨ck, hck⟩ := abandonedScan_sources dets t dets _ e he
        rw [hck] at hsrc
        exact EvSource.noConfusion hsrc
    · obtain ⟨kv, hkv, hev⟩ := suspiciousScan_mem _ _ e he
      rw [hev] at hsrc
      have hk1 : kv.1 = k := by simpa [suspiciousEvent] using hsrc
      have hmem : (k, kv.2) ∈ (cleanup_old_objects s t cur).tracks := by
        rw [← hk1]
        simpa using hkv
      exact absurd hmem (dictGet_eq_none_iff.mp hnone kv.2)
  · simp only [detect_anomalies, hut, detect_abandoned_objects]
    exact hnone

/-- Witness for C3 (amended): a store holding a person track last seen
at `t = 1` is fed a frame containing only a backpack detection at
`t = 7`; the frame's loop matches the backpack to a fresh id, the stale
person track is unmatched and is gone after the call. -/
theorem C3_sweeper_witness :
    dictGet (detect_anomalies .fnone
        ⟨[(("person", 0),
            ⟨[(5, 5, 1)], some 1, some 1, 12, [], some "person"⟩)], []⟩
        [bpDet] 0 7).2.tracks ("person", 0) = none :=
  (C3_sweeper_runs_before_classifiers
      ⟨[(("person", 0),
          ⟨[(5, 5, 1)], some 1, some 1, 12, [], some "person"⟩)], []⟩
      0 7 [bpDet] ("person", 0)
      ⟨[(5, 5, 1)], some 1, some 1, 12, [], some "person"⟩ 1
      ⟨[(("person", 0),
          ⟨[(5, 5, 1)], some 1, some 1, 12, [], some "person"⟩),
        (("backpack", 7000),
          ⟨[(205, 205, 7)], some 7, some 7, 0, [], some "backpack"⟩)], []⟩
      [("backpack", 7000)]
      (by with_unfolding_all decide) (by with_unfolding_all decide) rfl
      (by with_unfolding_all decide) (by with_unfolding_all decide)
      (by with_unfolding_all rfl) (by with_unfolding_all decide)).2
